import Mathlib

set_option maxHeartbeats 1000000
set_option maxRecDepth 8000

/- Verification development for the craigslist keyword watcher (main.py).
A shallow embedding of the script's data model and core functions, with
theorems about the scan-and-dedupe pipeline.  External boundaries (the
HTTP client, BeautifulSoup element extraction, the sendmail subprocess,
the filesystem and the JSON parser) are modelled as oracles or abstract
state; everything algorithmic is translated from the source. -/

namespace CraigslistWatch

/-! ## Character-list helpers (models of Python string primitives) -/

/-- Does `needle` occur at the start of `hay`? -/
def startsWithL : List Char → List Char → Bool
  | [], _ => true
  | _ :: _, [] => false
  | a :: as, b :: bs => a == b && startsWithL as bs

/-- Substring test over character lists: models Python's `in` operator on
strings (used by the blocked-page detection). -/
def isSubstrOf (needle : List Char) : List Char → Bool
  | [] => startsWithL needle []
  | b :: bs => startsWithL needle (b :: bs) || isSubstrOf needle bs

/-- Does `cs` end with `suffix`?  Models Python `str.endswith`. -/
def endsWithL (cs suffix : List Char) : Bool :=
  startsWithL suffix.reverse cs.reverse

/-- Strip leading and trailing whitespace from a character list. -/
def trimL (cs : List Char) : List Char :=
  ((cs.dropWhile Char.isWhitespace).reverse.dropWhile Char.isWhitespace).reverse

/-- Model of Python `str.strip()`. -/
def strip (s : String) : String := String.mk (trimL s.data)

/-! ## JSON documents and the seen-state store (load_seen / save_seen)

The seen file is modelled at the `json` library boundary: a disk state is
`Option (Option Json)` where `none` is a missing file, `some none` is a
present file whose contents fail `json.loads`, and `some (some j)` is a
file parsing to the document `j`. -/

inductive Json where
  | null : Json
  | bool : Bool → Json
  | num : Int → Json
  | str : String → Json
  | arr : List Json → Json
  | obj : List (String × Json) → Json
deriving Repr

mutual

/-- Model of Python `str()` applied to a parsed JSON value, as in
`set(map(str, data))` inside `load_seen`.  On strings it is the identity,
which is the only case the watcher's own writer ever produces. -/
def jsonToStr : Json → String
  | Json.null => "None"
  | Json.bool true => "True"
  | Json.bool false => "False"
  | Json.num n => toString n
  | Json.str s => s
  | Json.arr xs => "[" ++ jsonListStr xs ++ "]"
  | Json.obj fs => "\x7b" ++ jsonObjStr fs ++ "\x7d"

def jsonListStr : List Json → String
  | [] => ""
  | [x] => jsonToStr x
  | x :: y :: xs => jsonToStr x ++ ", " ++ jsonListStr (y :: xs)

def jsonObjStr : List (String × Json) → String
  | [] => ""
  | [(k, v)] => k ++ ": " ++ jsonToStr v
  | (k, v) :: f :: fs => k ++ ": " ++ jsonToStr v ++ ", " ++ jsonObjStr (f :: fs)

end

/-- `load_seen` (main.py lines 249-264): a missing file, a file that does
not parse, or a parsed document that is not a JSON array all yield the
empty set; an array yields the set of `str(...)` images of its elements. -/
def load_seen : Option (Option Json) → Finset String
  | none => ∅
  | some none => ∅
  | some (some (Json.arr xs)) => (xs.map jsonToStr).toFinset
  | some (some _) => ∅

/-- `save_seen` (main.py lines 267-269): writes `json.dumps(sorted(seen))`,
the JSON array of the set's identifiers in sorted order.  The model
returns the JSON document the written file parses back to. -/
def save_seen (seen : Finset String) : Json :=
  Json.arr ((seen.sort (· ≤ ·)).map Json.str)

/-! ## Listings and identifier derivation -/

/-- `Listing` (main.py lines 60-65). -/
structure Listing where
  id : String
  title : String
  link : String
deriving DecidableEq, Repr

/-- The characters of the literal `.html` used by `POST_ID_RE`. -/
def htmlSeg : List Char := ['.', 'h', 't', 'm', 'l']

/-- After the digit run, `POST_ID_RE` requires `.html` followed by `?` or
the end of the string (the `(?:\?|$)` group). -/
def htmlThenEnd (l : List Char) : Bool :=
  (l.take 5 == htmlSeg) && (l.drop 5 == ([] : List Char) || (l.drop 5).head? == some '?')

/-- One attempt of `POST_ID_RE` = `/(\d+)\.html(?:\?|$)` at the current
position: a `/`, then a maximal nonempty digit run, then `.html`, then
`?` or end of input.  (`\d+` is greedy and `.` is not a digit, so the
maximal run is the only candidate.) -/
def matchIdAt : List Char → Option (List Char)
  | [] => none
  | c :: rest =>
      if c = '/' then
        if rest.takeWhile Char.isDigit = [] then none
        else if htmlThenEnd (rest.dropWhile Char.isDigit) then
          some (rest.takeWhile Char.isDigit)
        else none
      else none

/-- `re.search` with `POST_ID_RE`: try each position left to right and
return the first (leftmost) digit group that matches. -/
def searchPostId : List Char → Option (List Char)
  | [] => none
  | c :: rest =>
      match matchIdAt (c :: rest) with
      | some ds => some ds
      | none => searchPostId rest

/-- `listing_id_from_url` (main.py lines 118-128): the digits of the first
`POST_ID_RE` match, or the whole URL when there is none. -/
def listing_id_from_url (url : String) : String :=
  match searchPostId url.data with
  | some ds => String.mk ds
  | none => url

/-! ## URL helpers (models of urllib.parse as the watcher uses it) -/

/-- The part of a URL after `scheme://` (or a leading `//`), when present. -/
def afterScheme (cs : List Char) : Option (List Char) :=
  match cs with
  | '/' :: '/' :: rest => some rest
  | _ =>
      let scheme := cs.takeWhile (fun c => c != ':')
      match cs.drop scheme.length with
      | ':' :: '/' :: '/' :: rest => some rest
      | _ => none

/-- Model of `urlparse(url).netloc`: the host part of an absolute URL,
empty when the URL has no `scheme://` part. -/
def netlocOf (url : String) : String :=
  match afterScheme url.data with
  | none => ""
  | some rest => String.mk (rest.takeWhile (fun c => c != '/' && c != '?' && c != '#'))

/-- `is_same_site` (main.py lines 131-138): compare the hosts of the two
URLs. -/
def is_same_site (url site_root : String) : Bool :=
  netlocOf url == netlocOf site_root

/-- Everything up to and including the last `/` of a character list. -/
def dropAfterLastSlash (cs : List Char) : List Char :=
  (cs.reverse.dropWhile (fun c => c != '/')).reverse

/-- Model of `urllib.parse.urljoin` restricted to the shapes the watcher
exercises: an absolute `rel` wins, a `//`-rooted one takes the base
scheme, a `/`-rooted one takes the base scheme and host, an empty one
keeps the base, and otherwise the base's last path segment is replaced by
`rel`. -/
def urljoin (base rel : String) : String :=
  if isSubstrOf "://".data rel.data then rel
  else if startsWithL "//".data rel.data then
    String.mk (base.data.takeWhile (fun c => c != ':')) ++ ":" ++ rel
  else if startsWithL "/".data rel.data then
    match afterScheme base.data with
    | none => rel
    | some rest =>
        String.mk (base.data.take (base.data.length - rest.length)) ++
        String.mk (rest.takeWhile (fun c => c != '/' && c != '?' && c != '#')) ++ rel
  else if rel = "" then base
  else String.mk (dropAfterLastSlash base.data) ++ rel

/-! ## The result-page parser (parse_search_results / add_listing)

BeautifulSoup's element selection is an external boundary: the candidate
`(href, visible-text)` anchor pairs that the source iterates over (from
`li.cl-static-search-result` rows, `li.result-row` rows, or the
all-anchors fallback — all three tiers feed the same `add_listing`) are
the parser's input here. -/

structure ParseState where
  seen_links : List String
  listings : List Listing
deriving DecidableEq, Repr

/-- `add_listing` (main.py lines 168-187): resolve the href against the
site root, drop it unless the link ends in `.html`, is on the same host
as the site root, and was not already seen in this call; otherwise append
a `Listing` with the derived id. -/
def add_listing (site_root : String) (st : ParseState) (href title_text : String) :
    ParseState :=
  let link := urljoin site_root href
  if !(endsWithL link.data ".html".data) then st
  else if !(is_same_site link site_root) then st
  else if st.seen_links.contains link then st
  else
    { seen_links := st.seen_links ++ [link]
      listings := st.listings ++
        [{ id := listing_id_from_url link
           title := if strip title_text = "" then "Craigslist match" else strip title_text
           link := link }] }

/-- `parse_search_results` (main.py lines 141-205), applied to the
candidate anchors of one page. -/
def parse_search_results (site_root : String) (anchors : List (String × String)) :
    List Listing :=
  (anchors.foldl (fun st a => add_listing site_root st a.1 a.2) ⟨[], []⟩).listings

/-! ## The keyword matcher (compile_keyword_regex)

The compiled pattern `(k1|k2|...)` with `re.IGNORECASE` over escaped
literals performs a leftmost search: positions are tried left to right
and, at each position, alternatives in list order; `m.group(0)` is the
slice of the *text* that matched.  That search is modelled directly
(case folding via `Char.toLower`, adequate for the ASCII keywords the
script targets). -/

/-- The keyword list after `[k.strip() for k in keywords if k.strip()]`. -/
def cleanedKeywords (keywords : List String) : List String :=
  (keywords.map strip).filter (fun k => !(k == ""))

/-- Does keyword `k` match case-insensitively at the head of `rest`? -/
def lowerEqAt (k rest : List Char) : Bool :=
  (rest.take k.length).map Char.toLower == k.map Char.toLower

/-- First alternative of the alternation that matches at this position;
returns the matched slice of the text. -/
def firstAltAt : List (List Char) → List Char → Option (List Char)
  | [], _ => none
  | k :: ks, rest =>
      if lowerEqAt k rest then some (rest.take k.length) else firstAltAt ks rest

/-- Leftmost search of the alternation over the whole text. -/
def altSearch (ks : List (List Char)) : List Char → Option (List Char)
  | [] => firstAltAt ks []
  | c :: rest =>
      match firstAltAt ks (c :: rest) with
      | some w => some w
      | none => altSearch ks rest

/-- `compile_keyword_regex` (main.py lines 231-242) as the search function
of the compiled pattern.  With no usable keyword the source compiles
`a^`, a pattern that matches nothing (`^` only matches at position 0 and
cannot follow a consumed `a`), modelled as the constantly-`none` search. -/
def compile_keyword_regex (keywords : List String) : String → Option String :=
  let cleaned := cleanedKeywords keywords
  if cleaned = [] then fun _ => none
  else fun text => (altSearch (cleaned.map String.data) text.data).map String.mk

/-! ## HTTP fetching (http_get_text) -/

/-- `BLOCKED_MARKER` (main.py line 83). -/
def BLOCKED_MARKER : String := "Your request has been blocked"

structure HttpResponse where
  status : Nat
  body : String
deriving DecidableEq, Repr

/-- `http_get_text` (main.py lines 86-107) on a response delivered by the
network oracle; `none` models a transport exception (timeout, connection
error).  `resp.raise_for_status()` raises exactly for status codes
400-599; afterwards a body containing `BLOCKED_MARKER` raises. -/
def http_get_text (resp : Option HttpResponse) : Except String String :=
  match resp with
  | none => Except.error "request exception"
  | some r =>
      if 400 ≤ r.status ∧ r.status < 600 then Except.error "HTTPError"
      else if isSubstrOf BLOCKED_MARKER.data r.body.data then Except.error "blocked page"
      else Except.ok r.body

/-! ## Alert dispatch (send_alert) -/

inductive AlertError where
  | missingRecipient : AlertError
  | mailerFailure : String → AlertError
deriving DecidableEq, Repr

/-- The notifier's environment: the `ALERT_TO` variable (empty string =
unset) and the sendmail subprocess as an oracle (its error covers a
missing binary and a non-zero exit status). -/
structure NotifierEnv where
  alert_to : String
  mailer : String → String → Except String Unit

/-- `send_alert` (main.py lines 276-328): a blank recipient is a
configuration error raised before any transport is attempted; otherwise
the message is handed to the mail transport. -/
def send_alert (env : NotifierEnv) (subject body : String) : Except AlertError Unit :=
  if strip env.alert_to = "" then Except.error AlertError.missingRecipient
  else
    match env.mailer subject body with
    | Except.ok _ => Except.ok ()
    | Except.error m => Except.error (AlertError.mailerFailure m)

/-! ## The scan orchestrator (run_once) -/

/-- The external world of one pass: network responses keyed by request,
BeautifulSoup extraction oracles, and the notifier environment. -/
structure Env where
  searchResponse : List (String × String) → Option HttpResponse
  postResponse : String → Option HttpResponse
  anchorsOf : String → List (String × String)
  extract_post_text : String → String
  notifier : NotifierEnv

structure Cfg where
  region : String
  category : String
  keywords : List String
  query : Option String
  pages : Nat
  page_size : Nat
  dry_run : Bool
deriving DecidableEq, Repr

/-- `build_search_url` (main.py lines 335-337). -/
def build_search_url (region category : String) : String :=
  "https://" ++ region ++ ".craigslist.org/search/" ++ category

def site_root (cfg : Cfg) : String :=
  "https://" ++ cfg.region ++ ".craigslist.org/"

/-- The query parameters of search page `page` (main.py lines 380-385):
always `sort=date`, the free-text query when truthy, and `s=offset` for
pages past the first. -/
def searchParams (cfg : Cfg) (page : Nat) : List (String × String) :=
  [("sort", "date")] ++
  (match cfg.query with
   | some q => if q = "" then [] else [("query", q)]
   | none => []) ++
  (if page * cfg.page_size = 0 then [] else [("s", toString (page * cfg.page_size))])

inductive RunError where
  | pageFetch : Nat → String → RunError
  | alert : AlertError → RunError
deriving DecidableEq, Repr

/-- The Fetching-Pages phase (main.py lines 379-391): fetch and parse
pages `0..n-1` in order, accumulating listings; the first fetch that
raises aborts the phase. -/
def fetchPagesUpTo (env : Env) (cfg : Cfg) : Nat → Except RunError (List Listing)
  | 0 => Except.ok []
  | n + 1 =>
      match fetchPagesUpTo env cfg n with
      | Except.error e => Except.error e
      | Except.ok acc =>
          match http_get_text (env.searchResponse (searchParams cfg n)) with
          | Except.error m => Except.error (RunError.pageFetch n m)
          | Except.ok html =>
              Except.ok (acc ++ parse_search_results (site_root cfg) (env.anchorsOf html))

/-- `dict.setdefault` on an insertion-ordered association list. -/
def setdefault (m : List (String × Listing)) (k : String) (v : Listing) :
    List (String × Listing) :=
  if (m.lookup k).isSome then m else m ++ [(k, v)]

/-- The Deduping phase (main.py lines 393-398): `by_id.setdefault(l.id, l)`
over all accumulated listings, then the dict's values in insertion
order. -/
def dedupe_by_id (ls : List Listing) : List Listing :=
  (ls.foldl (fun m l => setdefault m l.id l) []).map Prod.snd

/-- Observable actions of the per-listing loop, in execution order. -/
inductive Event where
  | markSeen : String → Event
  | fetchPost : String → Event
  | skipLog : String → Event
  | dryRunLine : String → Event
  | alertSent : String → String → Event
deriving DecidableEq, Repr

structure LoopState where
  seen : Finset String
  already_seen : Nat
  processed_new : Nat
  matched : Nat
  alerts_sent : Nat
  events : List Event
deriving DecidableEq

/-- The alert subject built from the matched word (main.py line 427). -/
def alertSubject (matched_word : String) : String :=
  "Craigslist match: " ++ matched_word

/-- The alert body built from the listing and matched word (main.py lines
428-432). -/
def alertBody (l : Listing) (matched_word : String) : String :=
  l.title ++ "\n" ++ l.link ++ "\n\n" ++ "Matched: " ++ matched_word ++ "\n"

/-- One iteration of the Per-Listing-Loop (main.py lines 401-441): skip a
seen listing; otherwise mark it seen, then fetch its page (a failure is
logged and the loop continues), extract the body, search the keywords,
and on a match either print a dry-run line or send the alert.  An
exception from `send_alert` propagates (carrying the state reached). -/
def processListing (env : Env) (cfg : Cfg) (st : LoopState) (listing : Listing) :
    Except (AlertError × LoopState) LoopState :=
  if listing.id ∈ st.seen then
    Except.ok { st with already_seen := st.already_seen + 1 }
  else
    let st1 := { st with processed_new := st.processed_new + 1
                         seen := insert listing.id st.seen
                         events := st.events ++ [Event.markSeen listing.id] }
    let st2 := { st1 with events := st1.events ++ [Event.fetchPost listing.link] }
    match http_get_text (env.postResponse listing.link) with
    | Except.error _ => Except.ok { st2 with events := st2.events ++ [Event.skipLog listing.link] }
    | Except.ok post_html =>
        let post_text := env.extract_post_text post_html
        if post_text = "" then Except.ok st2
        else
          match compile_keyword_regex cfg.keywords post_text with
          | none => Except.ok st2
          | some w =>
              let st3 := { st2 with matched := st2.matched + 1 }
              if cfg.dry_run then
                Except.ok { st3 with events := st3.events ++ [Event.dryRunLine (alertSubject w)] }
              else
                match send_alert env.notifier (alertSubject w) (alertBody listing w) with
                | Except.error e => Except.error (e, st3)
                | Except.ok _ =>
                    Except.ok { st3 with
                      alerts_sent := st3.alerts_sent + 1
                      events := st3.events ++ [Event.alertSent (alertSubject w) (alertBody listing w)] }

/-- The Per-Listing-Loop over the unique listings in discovery order. -/
def processAll (env : Env) (cfg : Cfg) :
    LoopState → List Listing → Except (AlertError × LoopState) LoopState
  | st, [] => Except.ok st
  | st, l :: ls =>
      match processListing env cfg st l with
      | Except.error e => Except.error e
      | Except.ok st2 => processAll env cfg st2 ls

/-- The Summarizing phase (main.py lines 446-459). -/
def summaryLine (dry : Bool) (total_found already_seen processed_new matched alerts_sent : Nat) :
    String :=
  if processed_new = 0 then
    s!"No new posts to scan (found {total_found}, already seen {already_seen}); nothing to send."
  else if alerts_sent = 0 then
    if dry then
      s!"[dry-run] Scanned {processed_new} new posts (found {total_found}, already seen {already_seen}); no keyword matches; nothing would be sent."
    else
      s!"Scanned {processed_new} new posts (found {total_found}, already seen {already_seen}); no keyword matches; nothing to send via email."
  else
    if dry then
      s!"[dry-run] Scanned {processed_new} new posts; matches={matched}; would-send={matched}."
    else
      s!"Scanned {processed_new} new posts; matches={matched}; emails-sent={alerts_sent}."

structure PassResult where
  total_found : Nat
  already_seen : Nat
  processed_new : Nat
  matched : Nat
  alerts_sent : Nat
  seen : Finset String
  events : List Event
  summary : String
deriving DecidableEq

instance {α : Type u} {β : Type v} [DecidableEq α] [DecidableEq β] :
    DecidableEq (Except α β) :=
  fun a b =>
    match a, b with
    | Except.ok x, Except.ok y =>
        if h : x = y then isTrue (by rw [h])
        else isFalse (fun he => h (by injection he))
    | Except.error x, Except.error y =>
        if h : x = y then isTrue (by rw [h])
        else isFalse (fun he => h (by injection he))
    | Except.ok _, Except.error _ => isFalse (fun he => Except.noConfusion he)
    | Except.error _, Except.ok _ => isFalse (fun he => Except.noConfusion he)

/-- The record `run_once` returns on completion: the loop's final
counters and state plus the summary line. -/
def mkPassResult (cfg : Cfg) (n : Nat) (st : LoopState) : PassResult :=
  { total_found := n
    already_seen := st.already_seen
    processed_new := st.processed_new
    matched := st.matched
    alerts_sent := st.alerts_sent
    seen := st.seen
    events := st.events
    summary := summaryLine cfg.dry_run n st.already_seen st.processed_new st.matched
      st.alerts_sent }

def initState (seen0 : Finset String) : LoopState :=
  { seen := seen0, already_seen := 0, processed_new := 0, matched := 0
    alerts_sent := 0, events := [] }

/-- The Fetching-Pages and Deduping phases together: the unique listings
of one pass. -/
def collectListings (env : Env) (cfg : Cfg) : Except RunError (List Listing) :=
  match fetchPagesUpTo env cfg (max 1 cfg.pages) with
  | Except.error e => Except.error e
  | Except.ok all_listings => Except.ok (dedupe_by_id all_listings)

/-- `run_once` (main.py lines 340-461): one scan pass, from the seen set
loaded off `disk` to the final state, counters and summary.  An error is
an uncaught exception escaping the pass (a search-page fetch failure or a
`send_alert` failure). -/
def run_once (env : Env) (cfg : Cfg) (disk : Option (Option Json)) :
    Except RunError PassResult :=
  match collectListings env cfg with
  | Except.error e => Except.error e
  | Except.ok listings_unique =>
      match processAll env cfg (initState (load_seen disk)) listings_unique with
      | Except.error (e, _) => Except.error (RunError.alert e)
      | Except.ok st => Except.ok (mkPassResult cfg listings_unique.length st)

/-- One pass as a transformer of the on-disk state: on completion the
seen file is rewritten (`save_seen`) and one summary line is printed; an
uncaught exception leaves the disk untouched and prints no summary
(`save_seen` at line 443 and the summary at lines 446-459 are only
reached when no exception escaped the `with` block). -/
def run_pass (env : Env) (cfg : Cfg) (disk : Option (Option Json)) :
    Option (Option Json) × Option String :=
  match run_once env cfg disk with
  | Except.ok r => (some (some (save_seen r.seen)), some r.summary)
  | Except.error _ => (disk, none)

/-- The loop state an iteration reached, whether or not it raised. -/
def stateOf : Except (AlertError × LoopState) LoopState → LoopState
  | Except.ok st => st
  | Except.error (_, st) => st

/-- No notifier invocation appears in the trace. -/
def noAlertEvents (evs : List Event) : Bool :=
  evs.all fun e =>
    match e with
    | Event.alertSent _ _ => false
    | _ => true

def isPageFetchError : RunError → Bool
  | RunError.pageFetch _ _ => true
  | RunError.alert _ => false

/-! ## Concrete fixtures used by witnesses -/

def exA1 : Listing := { id := "1", title := "a1", link := "https://x/1.html" }

def exA2 : Listing := { id := "2", title := "a2", link := "https://x/2.html" }

def exB2 : Listing := { id := "2", title := "b2", link := "https://x/2b.html" }

def exB3 : Listing := { id := "3", title := "b3", link := "https://x/3.html" }

def c2Cfg : Cfg :=
  { region := "boston", category := "gms", keywords := ["mario"], query := none
    pages := 1, page_size := 120, dry_run := false }

/-- A world whose search page answers with a 300-status response: not a
2xx success, yet not one of the 4xx/5xx statuses `raise_for_status`
raises on. -/
def c2Env : Env :=
  { searchResponse := fun _ => some { status := 300, body := "<html>choose a regional site</html>" }
    postResponse := fun _ => none
    anchorsOf := fun _ => []
    extract_post_text := fun _ => ""
    notifier := { alert_to := "", mailer := fun _ _ => Except.ok () } }

def c9Cfg : Cfg :=
  { region := "boston", category := "gms", keywords := ["mario"], query := none
    pages := 1, page_size := 120, dry_run := true }

/-- A dry-run world with one matching listing and a deliberately
unconfigured notifier (blank recipient, failing transport). -/
def c9Env : Env :=
  { searchResponse := fun _ => some { status := 200, body := "results page" }
    postResponse := fun _ => some { status := 200, body := "post page" }
    anchorsOf := fun _ => [("x/101.html", "mario cart")]
    extract_post_text := fun _ => "super mario bros cartridge"
    notifier := { alert_to := "", mailer := fun _ _ => Except.error "no sendmail" } }

/-- The pass result of the dry-run world `c9Env`. -/
def c9R : PassResult :=
  { total_found := 1
    already_seen := 0
    processed_new := 1
    matched := 1
    alerts_sent := 0
    seen := {"101"}
    events := [Event.markSeen "101",
               Event.fetchPost "https://boston.craigslist.org/x/101.html",
               Event.dryRunLine "Craigslist match: mario"]
    summary := "[dry-run] Scanned 1 new posts (found 1, already seen 0); no keyword matches; nothing would be sent." }

def c1A : Listing :=
  { id := "11", title := "A", link := "https://boston.craigslist.org/a/11.html" }

def c1B : Listing :=
  { id := "22", title := "B", link := "https://boston.craigslist.org/b/22.html" }

def c1Cfg : Cfg :=
  { region := "boston", category := "gms", keywords := ["mario"], query := none
    pages := 1, page_size := 120, dry_run := false }

/-- A live world with two listings where A's detail page fetches and
matches while B's detail fetch fails at the transport. -/
def c1Env : Env :=
  { searchResponse := fun _ => some { status := 200, body := "page" }
    postResponse := fun link =>
      if link = "https://boston.craigslist.org/a/11.html" then
        some { status := 200, body := "post a" }
      else none
    anchorsOf := fun _ =>
      [("https://boston.craigslist.org/a/11.html", "A"),
       ("https://boston.craigslist.org/b/22.html", "B")]
    extract_post_text := fun _ => "super mario bros"
    notifier := { alert_to := "me@example.com", mailer := fun _ _ => Except.ok () } }

/-- The pass result of the live world `c1Env`. -/
def c1R : PassResult :=
  { total_found := 2
    already_seen := 0
    processed_new := 2
    matched := 1
    alerts_sent := 1
    seen := {"22", "11"}
    events := [Event.markSeen "11",
               Event.fetchPost "https://boston.craigslist.org/a/11.html",
               Event.alertSent "Craigslist match: mario"
                 "A\nhttps://boston.craigslist.org/a/11.html\n\nMatched: mario\n",
               Event.markSeen "22",
               Event.fetchPost "https://boston.craigslist.org/b/22.html",
               Event.skipLog "https://boston.craigslist.org/b/22.html"]
    summary := "Scanned 2 new posts; matches=1; emails-sent=1." }

/-! # Theorems -/

/-! ## List helpers -/

theorem takeWhile_all (p : Char → Bool) (xs : List Char)
    (h1 : ∀ c ∈ xs, p c = true) : List.takeWhile p xs = xs := by
  induction xs with
  | nil => rfl
  | cons a as ih =>
      have ha : p a = true := h1 a (by simp)
      simp [List.takeWhile_cons, ha, ih (fun c hc => h1 c (by simp [hc]))]

theorem takeWhile_append_cons (p : Char → Bool) (xs : List Char) (y : Char)
    (ys : List Char) (h1 : ∀ c ∈ xs, p c = true) (h2 : p y = false) :
    List.takeWhile p (xs ++ y :: ys) = xs := by
  induction xs with
  | nil => simp [List.takeWhile_cons, h2]
  | cons a as ih =>
      have ha : p a = true := h1 a (by simp)
      simp [List.takeWhile_cons, ha]
      exact ih (fun c hc => h1 c (by simp [hc]))

theorem dropWhile_append_cons (p : Char → Bool) (xs : List Char) (y : Char)
    (ys : List Char) (h1 : ∀ c ∈ xs, p c = true) (h2 : p y = false) :
    List.dropWhile p (xs ++ y :: ys) = y :: ys := by
  induction xs with
  | nil => simp [List.dropWhile_cons, h2]
  | cons a as ih =>
      have ha : p a = true := h1 a (by simp)
      simp [List.dropWhile_cons, ha]
      exact ih (fun c hc => h1 c (by simp [hc]))

/-! ## Seen-state store: C5, C6 -/

theorem jsonToStr_str (s : String) : jsonToStr (Json.str s) = s := by
  simp [jsonToStr]

/-- The save/load round trip, as a reusable lemma. -/
theorem save_load_aux (s : Finset String) :
    load_seen (some (some (save_seen s))) = s := by
  have hmap : ∀ l : List String, (l.map Json.str).map jsonToStr = l := by
    intro l
    induction l with
    | nil => rfl
    | cons a as ih => simp [jsonToStr_str, ih]
  calc load_seen (some (some (save_seen s)))
      = (((s.sort (· ≤ ·)).map Json.str).map jsonToStr).toFinset := rfl
    _ = ((s.sort (· ≤ ·))).toFinset := by rw [hmap]
    _ = s := Finset.sort_toFinset _ s

/-- C5: `load(path)` never raises: a missing path, a file with invalid
JSON, or a JSON document that is not an array (for example the JSON
string "not a json array") all load as the empty seen set. -/
theorem C5_load_fail_open :
    load_seen none = ∅ ∧ load_seen (some none) = ∅ ∧
    ∀ j : Json, (∀ xs, j ≠ Json.arr xs) → load_seen (some (some j)) = ∅ := by
  refine ⟨rfl, rfl, ?_⟩
  intro j hj
  cases j with
  | null => rfl
  | bool b => rfl
  | num n => rfl
  | str s => rfl
  | arr xs => exact absurd rfl (hj xs)
  | obj fs => rfl

/-- Witness for C5 at the concrete document `"not a json array"`. -/
theorem C5_load_fail_open_witness :
    load_seen (some (some (Json.str "not a json array"))) = ∅ :=
  C5_load_fail_open.2.2 (Json.str "not a json array")
    (fun _ h => Json.noConfusion h)

/-- C6: saving any finite set of identifier strings and loading it back
from the same path returns exactly the original set. -/
theorem C6_save_load_roundtrip (s : Finset String) :
    load_seen (some (some (save_seen s))) = s :=
  save_load_aux s

/-! ## Keyword matcher: C4 -/

/-- C4: the predicate compiled from an empty keyword list, or from a list
all of whose entries strip to the empty string, matches no text at all,
including the empty string. -/
theorem C4_empty_keywords_match_nothing (keywords : List String)
    (h : ∀ k ∈ keywords, strip k = "") (text : String) :
    compile_keyword_regex keywords text = none := by
  have hclean : cleanedKeywords keywords = [] := by
    simp only [cleanedKeywords, List.filter_eq_nil_iff]
    intro k hk
    rcases List.mem_map.mp hk with ⟨k0, hk0, rfl⟩
    simp [h k0 hk0]
  simp [compile_keyword_regex, hclean]

/-- Witness for C4: the predicates from `[]` and from `["", "  "]` both
reject the empty string. -/
theorem C4_empty_keywords_match_nothing_witness :
    compile_keyword_regex [] "" = none ∧
    compile_keyword_regex ["", "  "] "" = none :=
  ⟨C4_empty_keywords_match_nothing [] (by decide) "",
   C4_empty_keywords_match_nothing ["", "  "] (by decide) ""⟩

/-! ## Identifier derivation: C7 -/

theorem matchIdAt_seg (D tail : List Char) (hD : D ≠ [])
    (hdig : ∀ c ∈ D, Char.isDigit c = true)
    (htail : tail = [] ∨ ∃ t, tail = '?' :: t) :
    matchIdAt ('/' :: (D ++ htmlSeg ++ tail)) = some D := by
  have hsplit : D ++ htmlSeg ++ tail = D ++ '.' :: ('h' :: 't' :: 'm' :: 'l' :: tail) := by
    simp [htmlSeg]
  have htake : (D ++ htmlSeg ++ tail).takeWhile Char.isDigit = D := by
    rw [hsplit]
    exact takeWhile_append_cons _ _ _ _ hdig (by decide)
  have hdrop : (D ++ htmlSeg ++ tail).dropWhile Char.isDigit =
      '.' :: ('h' :: 't' :: 'm' :: 'l' :: tail) := by
    rw [hsplit]
    exact dropWhile_append_cons _ _ _ _ hdig (by decide)
  have hend : htmlThenEnd ('.' :: ('h' :: 't' :: 'm' :: 'l' :: tail)) = true := by
    have h5 : List.take 5 ('.' :: ('h' :: 't' :: 'm' :: 'l' :: tail)) = htmlSeg := rfl
    have h6 : List.drop 5 ('.' :: ('h' :: 't' :: 'm' :: 'l' :: tail)) = tail := rfl
    rcases htail with h | ⟨t, h⟩ <;> subst h <;> simp [htmlThenEnd, h5, h6]
  have hsl : ('/' : Char) = '/' := rfl
  rw [matchIdAt, if_pos hsl, htake, if_neg hD, hdrop, if_pos hend]

theorem htmlThenEnd_shape (q : List Char) (h : htmlThenEnd q = true) :
    ∃ rest2, q = htmlSeg ++ rest2 ∧ (rest2 = [] ∨ ∃ t, rest2 = '?' :: t) := by
  simp only [htmlThenEnd, Bool.and_eq_true, Bool.or_eq_true, beq_iff_eq] at h
  obtain ⟨h5, h6⟩ := h
  refine ⟨q.drop 5, ?_, ?_⟩
  · conv_lhs => rw [← List.take_append_drop 5 q]
    rw [h5]
  · rcases h6 with h6 | h6
    · exact Or.inl h6
    · right
      cases hq : q.drop 5 with
      | nil => rw [hq] at h6; simp at h6
      | cons a t =>
          rw [hq] at h6
          simp only [List.head?_cons, Option.some_inj] at h6
          exact ⟨t, by rw [h6]⟩

theorem matchIdAt_shape (l ds : List Char) (h : matchIdAt l = some ds) :
    ∃ rest2, l = '/' :: (ds ++ htmlSeg ++ rest2) ∧ ds ≠ [] ∧
      (∀ c ∈ ds, Char.isDigit c = true) ∧ (rest2 = [] ∨ ∃ t, rest2 = '?' :: t) := by
  match l with
  | [] => simp [matchIdAt] at h
  | c :: rest =>
      by_cases hc : c = '/'
      · subst hc
        rw [matchIdAt] at h
        rw [if_pos rfl] at h
        by_cases hds : rest.takeWhile Char.isDigit = []
        · rw [if_pos hds] at h; exact absurd h (by simp)
        · rw [if_neg hds] at h
          by_cases hh : htmlThenEnd (rest.dropWhile Char.isDigit) = true
          · rw [if_pos hh] at h
            have hds2 : ds = rest.takeWhile Char.isDigit := by
              have := h
              simp only [Option.some_inj] at this
              exact this.symm
            rcases htmlThenEnd_shape _ hh with ⟨rest2, hq, hr2⟩
            refine ⟨rest2, ?_, ?_, ?_, hr2⟩
            · have : rest = rest.takeWhile Char.isDigit ++ rest.dropWhile Char.isDigit :=
                (List.takeWhile_append_dropWhile Char.isDigit rest).symm
              rw [hds2]
              conv_lhs => rw [this, hq]
              simp [List.append_assoc]
            · rw [hds2]; exact hds
            · intro x hx
              rw [hds2] at hx
              exact List.mem_takeWhile_imp hx
          · rw [if_neg hh] at h; exact absurd h (by simp)
      · rw [matchIdAt] at h
        rw [if_neg hc] at h
        exact absurd h (by simp)

theorem matchIdAt_none_of_inside (c : Char) (p D tail : List Char)
    (hp : '?' ∉ c :: p)
    (hdig : ∀ x ∈ D, Char.isDigit x = true)
    (htail : tail = [] ∨ ∃ t, tail = '?' :: t) :
    matchIdAt ((c :: p) ++ '/' :: (D ++ htmlSeg ++ tail)) = none := by
  cases hm : matchIdAt ((c :: p) ++ '/' :: (D ++ htmlSeg ++ tail)) with
  | none => rfl
  | some ds =>
      exfalso
      rcases matchIdAt_shape _ _ hm with ⟨rest2, heq, hds, hdsdig, hr2⟩
      -- Two decompositions of the same character list; compare their
      -- prefixes before the first '?'.
      have hnotqA : ∀ x ∈ (c :: p) ++ ('/' :: D) ++ htmlSeg, (x != '?') = true := by
        intro x hx
        have hxne : x ≠ '?' := by
          intro hxq
          subst hxq
          rcases List.mem_append.mp hx with h1 | h2
          · rcases List.mem_append.mp h1 with h3 | h4
            · exact hp h3
            · rcases List.mem_cons.mp h4 with h5 | h6
              · exact absurd h5 (by decide)
              · exact absurd (hdig _ h6) (by decide)
          · exact absurd h2 (by decide)
        simpa using hxne
      have hnotqB : ∀ x ∈ ('/' :: ds) ++ htmlSeg, (x != '?') = true := by
        intro x hx
        have hxne : x ≠ '?' := by
          intro hxq
          subst hxq
          rcases List.mem_append.mp hx with h1 | h2
          · rcases List.mem_cons.mp h1 with h3 | h4
            · exact absurd h3 (by decide)
            · exact absurd (hdsdig _ h4) (by decide)
          · exact absurd h2 (by decide)
        simpa using hxne
      have heq2 : ((c :: p) ++ ('/' :: D) ++ htmlSeg) ++ tail =
          (('/' :: ds) ++ htmlSeg) ++ rest2 := by
        have hA : (c :: p) ++ '/' :: (D ++ htmlSeg ++ tail) =
            ((c :: p) ++ ('/' :: D) ++ htmlSeg) ++ tail := by
          simp [List.append_assoc]
        have hB : '/' :: (ds ++ htmlSeg ++ rest2) = (('/' :: ds) ++ htmlSeg) ++ rest2 := by
          simp [List.append_assoc]
        rw [← hA, ← hB]
        exact heq
      have hFA : List.takeWhile (fun x => x != '?')
          (((c :: p) ++ ('/' :: D) ++ htmlSeg) ++ tail) =
          (c :: p) ++ ('/' :: D) ++ htmlSeg := by
        rcases htail with rfl | ⟨t, rfl⟩
        · rw [List.append_nil]; exact takeWhile_all _ _ hnotqA
        · exact takeWhile_append_cons _ _ _ _ hnotqA (by decide)
      have hFB : List.takeWhile (fun x => x != '?')
          ((('/' :: ds) ++ htmlSeg) ++ rest2) = ('/' :: ds) ++ htmlSeg := by
        rcases hr2 with rfl | ⟨t, rfl⟩
        · rw [List.append_nil]; exact takeWhile_all _ _ hnotqB
        · exact takeWhile_append_cons _ _ _ _ hnotqB (by decide)
      have hpre : (c :: p) ++ ('/' :: D) ++ htmlSeg = ('/' :: ds) ++ htmlSeg := by
        rw [← hFA, ← hFB, heq2]
      have hcancel : (c :: p) ++ ('/' :: D) = '/' :: ds :=
        List.append_cancel_right hpre
      have htl : p ++ ('/' :: D) = ds := by
        have := congrArg List.tail hcancel
        simpa using this
      have hmem2 : '/' ∈ ds := by
        rw [← htl]; simp
      exact absurd (hdsdig _ hmem2) (by decide)

theorem searchPostId_finds (pre D tail : List Char)
    (hp : '?' ∉ pre) (hD : D ≠ [])
    (hdig : ∀ c ∈ D, Char.isDigit c = true)
    (htail : tail = [] ∨ ∃ t, tail = '?' :: t) :
    searchPostId (pre ++ '/' :: (D ++ htmlSeg ++ tail)) = some D := by
  induction pre with
  | nil =>
      rw [List.nil_append, searchPostId, matchIdAt_seg D tail hD hdig htail]
  | cons c p ih =>
      have hm := matchIdAt_none_of_inside c p D tail hp hdig htail
      rw [List.cons_append] at hm ⊢
      rw [searchPostId, hm]
      exact ih (fun hq => hp (List.mem_cons_of_mem _ hq))

theorem searchPostId_shape (cs ds : List Char) (h : searchPostId cs = some ds) :
    ∃ pre rest2, cs = pre ++ '/' :: (ds ++ htmlSeg ++ rest2) ∧ ds ≠ [] ∧
      (∀ c ∈ ds, Char.isDigit c = true) ∧ (rest2 = [] ∨ ∃ t, rest2 = '?' :: t) := by
  induction cs with
  | nil => simp [searchPostId] at h
  | cons c rest ih =>
      rw [searchPostId] at h
      cases hm : matchIdAt (c :: rest) with
      | some ds2 =>
          rw [hm] at h
          simp only [Option.some_inj] at h
          subst h
          rcases matchIdAt_shape _ _ hm with ⟨rest2, heq, h1, h2, h3⟩
          exact ⟨[], rest2, by rw [List.nil_append, heq], h1, h2, h3⟩
      | none =>
          rw [hm] at h
          rcases ih h with ⟨pre, rest2, heq, h1, h2, h3⟩
          exact ⟨c :: pre, rest2, by rw [List.cons_append, heq], h1, h2, h3⟩

/-- C7: a URL whose path — the URL up to the start of the query (`?`) —
ends in a `/`-delimited numeric segment followed by `.html` gets that
numeric token as its id; a URL containing no such numeric `.html`
segment anywhere gets the full URL string itself as its id. -/
theorem C7_listing_id_from_url (url : String) :
    (∀ pre D tail : List Char,
        url.data = pre ++ '/' :: (D ++ htmlSeg ++ tail) →
        ('?' ∉ pre) → D ≠ [] → (∀ c ∈ D, Char.isDigit c = true) →
        (tail = [] ∨ ∃ t, tail = '?' :: t) →
        listing_id_from_url url = String.mk D) ∧
    ((¬ ∃ pre D tail : List Char,
        url.data = pre ++ '/' :: (D ++ htmlSeg ++ tail) ∧ D ≠ [] ∧
        (∀ c ∈ D, Char.isDigit c = true) ∧ (tail = [] ∨ ∃ t, tail = '?' :: t)) →
      listing_id_from_url url = url) := by
  constructor
  · intro pre D tail heq hp hD hdig htail
    unfold listing_id_from_url
    rw [heq, searchPostId_finds pre D tail hp hD hdig htail]
  · intro hnone
    unfold listing_id_from_url
    cases hs : searchPostId url.data with
    | none => rfl
    | some ds =>
        rcases searchPostId_shape _ _ hs with ⟨pre, rest2, heq, h1, h2, h3⟩
        exact absurd ⟨pre, ds, rest2, heq, h1, h2, h3⟩ hnone

/-- Witness for C7 at the spec's example URL. -/
theorem C7_listing_id_from_url_witness :
    listing_id_from_url "https://boston.craigslist.org/gbs/gms/d/x/7812345678.html" =
      String.mk "7812345678".data :=
  (C7_listing_id_from_url "https://boston.craigslist.org/gbs/gms/d/x/7812345678.html").1
    "https://boston.craigslist.org/gbs/gms/d/x".data "7812345678".data []
    (by decide) (by decide) (by decide) (by decide) (Or.inl rfl)

/-! ## Result-page parser link filtering: C8 -/

theorem add_listing_preserves (site_root href title_text : String) (st : ParseState)
    (hinv : ∀ l ∈ st.listings, endsWithL l.link.data ".html".data = true ∧
      is_same_site l.link site_root = true) :
    ∀ l ∈ (add_listing site_root st href title_text).listings,
      endsWithL l.link.data ".html".data = true ∧ is_same_site l.link site_root = true := by
  intro l hl
  simp only [add_listing] at hl
  split at hl
  · exact hinv l hl
  rename_i h1
  split at hl
  · exact hinv l hl
  rename_i h2
  split at hl
  · exact hinv l hl
  rcases List.mem_append.mp hl with h | h
  · exact hinv l h
  · simp only [List.mem_singleton] at h
    subst h
    constructor
    · simpa using h1
    · simpa using h2

/-- C8: every listing the result-page parser outputs has a link ending in
`.html` whose host equals the site root's host; a candidate anchor whose
href, resolved against the site root, fails either test contributes no
listing to the output. -/
theorem C8_parser_link_filter (site_root : String) (anchors : List (String × String)) :
    (∀ l ∈ parse_search_results site_root anchors,
        endsWithL l.link.data ".html".data = true ∧
        is_same_site l.link site_root = true) ∧
    (∀ href title_text : String,
        (endsWithL (urljoin site_root href).data ".html".data = false ∨
         is_same_site (urljoin site_root href) site_root = false) →
        ∀ l ∈ parse_search_results site_root anchors, l.link ≠ urljoin site_root href) := by
  have main : ∀ (ancs : List (String × String)) (st : ParseState),
      (∀ l ∈ st.listings, endsWithL l.link.data ".html".data = true ∧
        is_same_site l.link site_root = true) →
      ∀ l ∈ (ancs.foldl (fun s a => add_listing site_root s a.1 a.2) st).listings,
        endsWithL l.link.data ".html".data = true ∧ is_same_site l.link site_root = true := by
    intro ancs
    induction ancs with
    | nil => intro st h; exact h
    | cons a as ih =>
        intro st h
        exact ih (add_listing site_root st a.1 a.2)
          (add_listing_preserves site_root a.1 a.2 st h)
  have hbase : ∀ l ∈ (ParseState.mk [] []).listings,
      endsWithL l.link.data ".html".data = true ∧ is_same_site l.link site_root = true := by
    intro l hl
    exact absurd hl (List.not_mem_nil l)
  constructor
  · intro l hl
    simp only [parse_search_results] at hl
    exact main anchors (ParseState.mk [] []) hbase l hl
  · intro href title_text hbad l hl hlink
    have hprop : endsWithL l.link.data ".html".data = true ∧
        is_same_site l.link site_root = true := by
      simp only [parse_search_results] at hl
      exact main anchors (ParseState.mk [] []) hbase l hl
    rcases hbad with hb | hb
    · rw [hlink] at hprop
      rw [hprop.1] at hb
      cases hb
    · rw [hlink] at hprop
      rw [hprop.2] at hb
      cases hb

/-- Witness for C8: a relative anchor resolved on the boston site root
yields a listing whose link passes both filters. -/
theorem C8_parser_link_filter_witness :
    endsWithL ("https://boston.craigslist.org/gbs/gms/d/x/7812345678.html" : String).data
      ".html".data = true ∧
    is_same_site "https://boston.craigslist.org/gbs/gms/d/x/7812345678.html"
      "https://boston.craigslist.org/" = true :=
  (C8_parser_link_filter "https://boston.craigslist.org/"
    [("gbs/gms/d/x/7812345678.html", "gameboy lot")]).1
    { id := "7812345678", title := "gameboy lot"
      link := "https://boston.craigslist.org/gbs/gms/d/x/7812345678.html" }
    (by decide)

/-! ## Deduplication by identifier: C3 -/

theorem lookup_isSome_iff (m : List (String × Listing)) (k : String) :
    ((m.lookup k).isSome = true) ↔ k ∈ m.map Prod.fst := by
  induction m with
  | nil => simp [List.lookup]
  | cons a as ih =>
      obtain ⟨k2, v2⟩ := a
      by_cases hk : k = k2
      · subst hk
        simp [List.lookup]
      · have hkb : (k == k2) = false := by simpa using hk
        simp only [List.lookup, hkb]
        rw [ih]
        simp [hk]

theorem dedupe_invariant (ls : List Listing) :
    ∀ m : List (String × Listing),
      ∃ vs : List Listing,
        (ls.foldl (fun acc l => setdefault acc l.id l) m) =
            m ++ vs.map (fun v => (v.id, v)) ∧
        vs.Sublist ls ∧
        (∀ l ∈ ls, l.id ∈ m.map Prod.fst ∨ l.id ∈ vs.map Listing.id) ∧
        (∀ v ∈ vs, v.id ∉ m.map Prod.fst ∧ ls.find? (fun x => x.id == v.id) = some v) ∧
        ((m.map Prod.fst).Nodup → (m.map Prod.fst ++ vs.map Listing.id).Nodup) := by
  induction ls with
  | nil =>
      intro m
      exact ⟨[], by simp, List.Sublist.refl _, by simp, by simp, by simpa using id⟩
  | cons l ls ih =>
      intro m
      by_cases hin : (m.lookup l.id).isSome = true
      · have hset : setdefault m l.id l = m := by
          simp [setdefault, hin]
        rcases ih m with ⟨vs, hfold, hsub, hcov, hfirst, hnodup⟩
        refine ⟨vs, ?_, hsub.cons l, ?_, ?_, hnodup⟩
        · simpa [List.foldl_cons, hset] using hfold
        · intro x hx
          rcases List.mem_cons.mp hx with rfl | hx2
          · exact Or.inl ((lookup_isSome_iff m x.id).mp hin)
          · exact hcov x hx2
        · intro v hv
          rcases hfirst v hv with ⟨hnot, hfind⟩
          have hne : (l.id == v.id) = false := by
            have : l.id ≠ v.id := by
              intro he
              exact hnot (he ▸ (lookup_isSome_iff m l.id).mp hin)
            simpa using this
          refine ⟨hnot, ?_⟩
          rw [List.find?_cons_of_neg _ (by simpa using hne), hfind]
      · have hset : setdefault m l.id l = m ++ [(l.id, l)] := by
          simp [setdefault, hin]
        rcases ih (m ++ [(l.id, l)]) with ⟨vs, hfold, hsub, hcov, hfirst, hnodup⟩
        have hlnot : l.id ∉ m.map Prod.fst := fun hmem =>
          hin ((lookup_isSome_iff m l.id).mpr hmem)
        refine ⟨l :: vs, ?_, hsub.cons₂ l, ?_, ?_, ?_⟩
        · rw [List.foldl_cons, hset, hfold]
          simp [List.append_assoc]
        · intro x hx
          rcases List.mem_cons.mp hx with rfl | hx2
          · exact Or.inr (by simp)
          · rcases hcov x hx2 with hcl | hcr
            · rw [List.map_append] at hcl
              rcases List.mem_append.mp hcl with hm1 | hm2
              · exact Or.inl hm1
              · simp only [List.map_cons, List.map_nil, List.mem_singleton] at hm2
                exact Or.inr (by simp [hm2])
            · exact Or.inr (by simp [hcr])
        · intro v hv
          rcases List.mem_cons.mp hv with rfl | hv2
          · refine ⟨hlnot, ?_⟩
            rw [List.find?_cons_of_pos _ (by simp)]
          · rcases hfirst v hv2 with ⟨hnot, hfind⟩
            rw [List.map_append] at hnot
            have hnotm : v.id ∉ m.map Prod.fst := fun hx => hnot (List.mem_append.mpr (Or.inl hx))
            have hne : v.id ≠ l.id := by
              intro he
              exact hnot (List.mem_append.mpr (Or.inr (by simp [he])))
            refine ⟨hnotm, ?_⟩
            rw [List.find?_cons_of_neg _ (by simpa using fun h => hne h.symm), hfind]
        · intro hm
          have hm2 : ((m ++ [(l.id, l)]).map Prod.fst).Nodup := by
            rw [List.map_append]
            simp only [List.map_cons, List.map_nil]
            rw [List.nodup_append]
            exact ⟨hm, List.nodup_singleton _, by simpa using hlnot⟩
          have := hnodup hm2
          rw [List.map_append] at this
          simpa [List.append_assoc] using this

theorem dedupe_by_id_spec (ls : List Listing) :
    (dedupe_by_id ls).Sublist ls ∧
    ((dedupe_by_id ls).map Listing.id).Nodup ∧
    (∀ l ∈ ls, l.id ∈ (dedupe_by_id ls).map Listing.id) ∧
    (∀ u ∈ dedupe_by_id ls, ls.find? (fun x => x.id == u.id) = some u) := by
  rcases dedupe_invariant ls [] with ⟨vs, hfold, hsub, hcov, hfirst, hnodup⟩
  have hd : dedupe_by_id ls = vs := by
    unfold dedupe_by_id
    rw [hfold]
    simp only [List.nil_append, List.map_map]
    have hcomp : (Prod.snd ∘ fun v : Listing => (v.id, v)) = id := rfl
    rw [hcomp, List.map_id]
  rw [hd]
  refine ⟨hsub, ?_, ?_, fun u hu => (hfirst u hu).2⟩
  · simpa using hnodup (by simp)
  · intro l hl
    rcases hcov l hl with h | h
    · simp at h
    · exact h

/-- C3: the listings accumulated from all pages of one pass are
deduplicated by identifier with first-occurrence-wins — the unique
listings are a subsequence of the accumulated listings (discovery order),
their ids are pairwise distinct and cover every accumulated listing's id,
and each kept listing is the first accumulated listing bearing its id. -/
theorem C3_dedupe_first_wins (pages : List (List Listing)) :
    (dedupe_by_id pages.flatten).Sublist pages.flatten ∧
    ((dedupe_by_id pages.flatten).map Listing.id).Nodup ∧
    (∀ l ∈ pages.flatten, l.id ∈ (dedupe_by_id pages.flatten).map Listing.id) ∧
    (∀ u ∈ dedupe_by_id pages.flatten,
        pages.flatten.find? (fun x => x.id == u.id) = some u) :=
  dedupe_by_id_spec pages.flatten

/-- Witness for C3: pages with ids `["1","2"]` and `["2","3"]` merge to
exactly three listings, each the value of its id's first occurrence. -/
theorem C3_dedupe_first_wins_witness :
    dedupe_by_id [[exA1, exA2], [exB2, exB3]].flatten = [exA1, exA2, exB3] ∧
    [[exA1, exA2], [exB2, exB3]].flatten.find? (fun x => x.id == exA2.id) = some exA2 :=
  ⟨by decide,
   (C3_dedupe_first_wins [[exA1, exA2], [exB2, exB3]]).2.2.2 exA2 (by decide)⟩

/-! ## Keyword match reporting: C10 -/

theorem firstAltAt_shape (ks : List (List Char)) (rest w : List Char)
    (h : firstAltAt ks rest = some w) :
    ∃ ks1 k ks2, ks = ks1 ++ k :: ks2 ∧
      (∀ k2 ∈ ks1, lowerEqAt k2 rest = false) ∧
      lowerEqAt k rest = true ∧ w = rest.take k.length := by
  induction ks with
  | nil => simp [firstAltAt] at h
  | cons k ks ih =>
      rw [firstAltAt] at h
      by_cases hk : lowerEqAt k rest = true
      · rw [if_pos hk] at h
        simp only [Option.some_inj] at h
        exact ⟨[], k, ks, rfl, by simp, hk, h.symm⟩
      · rw [if_neg hk] at h
        rcases ih h with ⟨ks1, k2, ks2, heq, hfail, hk2, hw⟩
        refine ⟨k :: ks1, k2, ks2, by simp [heq], ?_, hk2, hw⟩
        intro k3 hk3
        rcases List.mem_cons.mp hk3 with rfl | hk4
        · simpa using hk
        · exact hfail k3 hk4

theorem altSearch_shape (ks : List (List Char)) (t w : List Char)
    (h : altSearch ks t = some w) :
    ∃ pre rest, t = pre ++ rest ∧ firstAltAt ks rest = some w ∧
      ∀ pre2 rest2, t = pre2 ++ rest2 → pre2.length < pre.length →
        firstAltAt ks rest2 = none := by
  induction t with
  | nil =>
      rw [altSearch] at h
      exact ⟨[], [], rfl, h, fun pre2 rest2 _ hlt => absurd hlt (by simp)⟩
  | cons c rest0 ih =>
      rw [altSearch] at h
      cases hm : firstAltAt ks (c :: rest0) with
      | some w2 =>
          rw [hm] at h
          simp only [Option.some_inj] at h
          subst h
          exact ⟨[], c :: rest0, rfl, hm, fun pre2 rest2 _ hlt => absurd hlt (by simp)⟩
      | none =>
          rw [hm] at h
          rcases ih h with ⟨pre, rest, heq, hfind, hmin⟩
          refine ⟨c :: pre, rest, by rw [List.cons_append, heq], hfind, ?_⟩
          intro pre2 rest2 ht hlt
          cases pre2 with
          | nil =>
              simp only [List.nil_append] at ht
              rw [← ht]
              exact hm
          | cons c2 p2 =>
              rw [List.cons_append] at ht
              injection ht with hc hrest
              exact hmin p2 rest2 hrest (by simpa using hlt)

/-- C10: when the compiled predicate matches a post text, the reported
word `w` is the matched slice of the text itself, preserving the text's
casing: the text splits as `pre ++ w ++ suf`; no keyword matches at any
earlier position (the match is leftmost); the winning keyword is the
first of the cleaned keyword list matching at that position, and `w`
equals it up to case; and the alert subject and body embed `w`
verbatim. -/
theorem C10_match_word_from_text (keywords : List String) (text w : String)
    (h : compile_keyword_regex keywords text = some w) :
    (∃ pre suf : List Char,
        text.data = pre ++ w.data ++ suf ∧
        (∀ pre2 rest2 : List Char, text.data = pre2 ++ rest2 →
            pre2.length < pre.length →
            firstAltAt ((cleanedKeywords keywords).map String.data) rest2 = none) ∧
        (∃ ks1 k ks2, (cleanedKeywords keywords).map String.data = ks1 ++ k :: ks2 ∧
            (∀ k2 ∈ ks1, lowerEqAt k2 (w.data ++ suf) = false) ∧
            w.data.map Char.toLower = k.map Char.toLower)) ∧
    alertSubject w = "Craigslist match: " ++ w ∧
    (∀ l : Listing, ∃ b1 b2 : List Char,
        (alertBody l w).data = b1 ++ w.data ++ b2) := by
  unfold compile_keyword_regex at h
  by_cases hcl : cleanedKeywords keywords = []
  · rw [if_pos hcl] at h
    exact absurd h (by simp)
  · rw [if_neg hcl] at h
    cases hs : altSearch ((cleanedKeywords keywords).map String.data) text.data with
    | none => rw [hs] at h; exact absurd h (by simp)
    | some wl =>
    rw [hs] at h
    have hw : String.mk wl = w := by simpa using h
    have hsearch := hs
    have hwdata : w.data = wl := by rw [← hw]
    rcases altSearch_shape _ _ _ hsearch with ⟨pre, rest, heq, hfind, hmin⟩
    rcases firstAltAt_shape _ _ _ hfind with ⟨ks1, k, ks2, hks, hfail, hkm, hwl⟩
    have hrest : rest = wl ++ rest.drop k.length := by
      conv_lhs => rw [← List.take_append_drop k.length rest]
      rw [← hwl]
    refine ⟨?_, rfl, ?_⟩
    · refine ⟨pre, rest.drop k.length, ?_, ?_, ?_⟩
      · rw [heq, hwdata]
        conv_lhs => rw [hrest]
        rw [List.append_assoc]
      · intro pre2 rest2 ht hlt
        exact hmin pre2 rest2 ht hlt
      · refine ⟨ks1, k, ks2, hks, ?_, ?_⟩
        · intro k2 hk2
          rw [hwdata, ← hrest]
          exact hfail k2 hk2
        · have := congrArg (List.map Char.toLower) hwl
          rw [hwdata, this]
          simpa [lowerEqAt] using hkm
    · intro l
      refine ⟨(l.title ++ "\n" ++ l.link ++ "\n\n" ++ "Matched: ").data, "\n".data, ?_⟩
      simp [alertBody, List.append_assoc]

/-- Witness for C10: keyword list ["MARIO"] over the text
"super mario bros" reports the text-cased slice "mario". -/
theorem C10_match_word_from_text_witness :
    (∃ pre suf : List Char,
        ("super mario bros" : String).data = pre ++ ("mario" : String).data ++ suf ∧
        (∀ pre2 rest2 : List Char, ("super mario bros" : String).data = pre2 ++ rest2 →
            pre2.length < pre.length →
            firstAltAt ((cleanedKeywords ["MARIO"]).map String.data) rest2 = none) ∧
        (∃ ks1 k ks2, (cleanedKeywords ["MARIO"]).map String.data = ks1 ++ k :: ks2 ∧
            (∀ k2 ∈ ks1, lowerEqAt k2 (("mario" : String).data ++ suf) = false) ∧
            ("mario" : String).data.map Char.toLower = k.map Char.toLower)) ∧
    alertSubject "mario" = "Craigslist match: " ++ "mario" ∧
    (∀ l : Listing, ∃ b1 b2 : List Char,
        (alertBody l "mario").data = b1 ++ ("mario" : String).data ++ b2) :=
  C10_match_word_from_text ["MARIO"] "super mario bros" "mario" (by decide)

/-! ## Transport-fatal page errors: C2 -/

theorem http_get_text_some (r : HttpResponse) :
    http_get_text (some r) =
      (if 400 ≤ r.status ∧ r.status < 600 then Except.error "HTTPError"
       else if isSubstrOf BLOCKED_MARKER.data r.body.data then Except.error "blocked page"
       else Except.ok r.body) := rfl

theorem http_error_of_bad (r : HttpResponse)
    (h : (400 ≤ r.status ∧ r.status < 600) ∨
         isSubstrOf BLOCKED_MARKER.data r.body.data = true) :
    ∃ m, http_get_text (some r) = Except.error m := by
  rw [http_get_text_some]
  by_cases h4 : 400 ≤ r.status ∧ r.status < 600
  · exact ⟨"HTTPError", by rw [if_pos h4]⟩
  · rcases h with h | hmark
    · exact absurd h h4
    · refine ⟨"blocked page", ?_⟩
      rw [if_neg h4, if_pos hmark]

theorem fetchPagesUpTo_error (env : Env) (cfg : Cfg) :
    ∀ n, (∃ p, p < n ∧
        ∃ m, http_get_text (env.searchResponse (searchParams cfg p)) = Except.error m) →
      ∃ e, fetchPagesUpTo env cfg n = Except.error e := by
  intro n
  induction n with
  | zero =>
      rintro ⟨p, hp, _⟩
      exact absurd hp (Nat.not_lt_zero p)
  | succ n ih =>
      rintro ⟨p, hp, m, hm⟩
      cases hfp : fetchPagesUpTo env cfg n with
      | error e =>
          refine ⟨e, ?_⟩
          rw [fetchPagesUpTo, hfp]
      | ok acc =>
          have hpn : p = n := by
            rcases Nat.lt_succ_iff_lt_or_eq.mp hp with hlt | heq2
            · exfalso
              rcases ih ⟨p, hlt, m, hm⟩ with ⟨e, he⟩
              rw [he] at hfp
              cases hfp
            · exact heq2
          subst hpn
          refine ⟨RunError.pageFetch p m, ?_⟩
          rw [fetchPagesUpTo, hfp, hm]

/-- C2 (amended): if fetching any search-results page yields an HTTP
error status — 4xx/5xx, the statuses `raise_for_status` raises on — or a
response body containing the block-page marker, the whole scan pass
aborts with an error: no summary line is emitted and nothing is written
to the seen file, so the on-disk seen state is exactly what it was
before the pass. -/
theorem C2_page_error_aborts_pass (env : Env) (cfg : Cfg) (disk : Option (Option Json))
    (h : ∃ p, p < max 1 cfg.pages ∧ ∃ r,
        env.searchResponse (searchParams cfg p) = some r ∧
        ((400 ≤ r.status ∧ r.status < 600) ∨
         isSubstrOf BLOCKED_MARKER.data r.body.data = true)) :
    run_pass env cfg disk = (disk, none) := by
  rcases h with ⟨p, hp, r, hr, hbad⟩
  rcases http_error_of_bad r hbad with ⟨m, hm⟩
  have herr : ∃ e, fetchPagesUpTo env cfg (max 1 cfg.pages) = Except.error e :=
    fetchPagesUpTo_error env cfg _ ⟨p, hp, m, by rw [hr]; exact hm⟩
  rcases herr with ⟨e, he⟩
  unfold run_pass run_once collectListings
  rw [he]

/-- C2 counterexample: a 300-status (non-2xx) search-page response does
not abort the pass — `raise_for_status` raises only for 4xx/5xx — so the
pass completes, emits its summary line and rewrites the seen file. -/
theorem C2_counterexample :
    (∃ r, c2Env.searchResponse (searchParams c2Cfg 0) = some r ∧
        ¬(200 ≤ r.status ∧ r.status < 300) ∧
        isSubstrOf BLOCKED_MARKER.data r.body.data = false) ∧
    (run_pass c2Env c2Cfg none).2 =
      some "No new posts to scan (found 0, already seen 0); nothing to send." ∧
    (run_pass c2Env c2Cfg none).1 = some (some (Json.arr [])) := by
  refine ⟨⟨{ status := 300, body := "<html>choose a regional site</html>" },
    rfl, by decide, by decide⟩, by decide, ?_⟩
  have h0 : (run_pass c2Env c2Cfg none).1 =
      some (some (save_seen (∅ : Finset String))) := rfl
  rw [h0]
  simp [save_seen]

/-- Witness for the amended C2: a 503 search-page response leaves the
disk untouched and produces no summary. -/
theorem C2_page_error_aborts_pass_witness :
    run_pass
      { c2Env with searchResponse := fun _ => some { status := 503, body := "busy" } }
      c2Cfg (some (some (Json.arr [Json.str "7"]))) =
    (some (some (Json.arr [Json.str "7"])), none) :=
  C2_page_error_aborts_pass
    { c2Env with searchResponse := fun _ => some { status := 503, body := "busy" } }
    c2Cfg (some (some (Json.arr [Json.str "7"])))
    ⟨0, by decide, { status := 503, body := "busy" }, rfl, Or.inl (by decide)⟩

/-! ## Dry-run passes: C9 -/

theorem processListing_dry (env : Env) (cfg : Cfg) (st : LoopState) (l : Listing)
    (hdry : cfg.dry_run = true) :
    ∃ st2, processListing env cfg st l = Except.ok st2 ∧
      st2.alerts_sent = st.alerts_sent ∧
      ∀ s b, Event.alertSent s b ∈ st2.events → Event.alertSent s b ∈ st.events := by
  unfold processListing
  by_cases hseen : l.id ∈ st.seen
  · rw [if_pos hseen]
    exact ⟨_, rfl, rfl, fun s b h => h⟩
  · rw [if_neg hseen]
    cases hf : http_get_text (env.postResponse l.link) with
    | error m =>
        simp only [hf]
        refine ⟨_, rfl, rfl, ?_⟩
        intro s b hmem
        simpa using hmem
    | ok post_html =>
        simp only [hf]
        by_cases hempty : env.extract_post_text post_html = ""
        · rw [if_pos hempty]
          refine ⟨_, rfl, rfl, ?_⟩
          intro s b hmem
          simpa using hmem
        · rw [if_neg hempty]
          cases hkw : compile_keyword_regex cfg.keywords (env.extract_post_text post_html) with
          | none =>
              simp only [hkw]
              refine ⟨_, rfl, rfl, ?_⟩
              intro s b hmem
              simpa using hmem
          | some w =>
              simp only [hkw]
              rw [if_pos hdry]
              refine ⟨_, rfl, rfl, ?_⟩
              intro s b hmem
              simpa using hmem

theorem processAll_dry (env : Env) (cfg : Cfg) (hdry : cfg.dry_run = true) :
    ∀ (ls : List Listing) (st : LoopState),
      ∃ st2, processAll env cfg st ls = Except.ok st2 ∧
        st2.alerts_sent = st.alerts_sent ∧
        ∀ s b, Event.alertSent s b ∈ st2.events → Event.alertSent s b ∈ st.events := by
  intro ls
  induction ls with
  | nil =>
      intro st
      exact ⟨st, rfl, rfl, fun s b h => h⟩
  | cons l ls ih =>
      intro st
      rcases processListing_dry env cfg st l hdry with ⟨st1, h1, ha1, he1⟩
      rcases ih st1 with ⟨st2, h2, ha2, he2⟩
      refine ⟨st2, ?_, by rw [ha2, ha1], fun s b h => he1 s b (he2 s b h)⟩
      simp only [processAll, h1]
      exact h2

theorem fetchPagesUpTo_error_shape (env : Env) (cfg : Cfg) :
    ∀ n e, fetchPagesUpTo env cfg n = Except.error e → isPageFetchError e = true := by
  intro n
  induction n with
  | zero =>
      intro e h
      cases h
  | succ n ih =>
      intro e h
      rw [fetchPagesUpTo] at h
      cases hf : fetchPagesUpTo env cfg n with
      | error e2 =>
          rw [hf] at h
          simp only [Except.error.injEq] at h
          subst h
          exact ih e2 hf
      | ok acc =>
          rw [hf] at h
          cases hg : http_get_text (env.searchResponse (searchParams cfg n)) with
          | error m =>
              rw [hg] at h
              simp only [Except.error.injEq] at h
              subst h
              rfl
          | ok html =>
              rw [hg] at h
              cases h

theorem run_once_ok_inv (env : Env) (cfg : Cfg) (disk : Option (Option Json))
    (r : PassResult) (h : run_once env cfg disk = Except.ok r) :
    ∃ L st, collectListings env cfg = Except.ok L ∧
      processAll env cfg (initState (load_seen disk)) L = Except.ok st ∧
      r = mkPassResult cfg L.length st := by
  unfold run_once at h
  split at h
  · cases h
  · rename_i L hL
    split at h
    · cases h
    · rename_i st hst
      refine ⟨L, st, hL, hst, ?_⟩
      injection h with h2
      exact h2.symm

theorem run_once_error_inv (env : Env) (cfg : Cfg) (disk : Option (Option Json))
    (e : RunError) (h : run_once env cfg disk = Except.error e) :
    collectListings env cfg = Except.error e ∨
    ∃ L e2 st, collectListings env cfg = Except.ok L ∧
      processAll env cfg (initState (load_seen disk)) L = Except.error (e2, st) ∧
      e = RunError.alert e2 := by
  unfold run_once at h
  split at h
  · rename_i e2 hL
    left
    injection h with h2
    rw [hL, h2]
  · rename_i L hL
    split at h
    · rename_i e2 st2 hst
      right
      injection h with h2
      exact ⟨L, e2, st2, hL, hst, h2.symm⟩
    · cases h

theorem collectListings_error_shape (env : Env) (cfg : Cfg) (e : RunError)
    (h : collectListings env cfg = Except.error e) : isPageFetchError e = true := by
  unfold collectListings at h
  cases hf : fetchPagesUpTo env cfg (max 1 cfg.pages) with
  | error e2 =>
      rw [hf] at h
      simp only [Except.error.injEq] at h
      subst h
      exact fetchPagesUpTo_error_shape env cfg _ e2 hf
  | ok L =>
      rw [hf] at h
      cases h

/-- C9: a dry-run pass never invokes the notifier — its trace contains no
alert-sent event — and always returns an alerts-sent count of 0; it can
only abort on a search-page fetch error, never with the
missing-recipient configuration error. -/
theorem C9_dry_run_no_alerts (env : Env) (cfg : Cfg) (disk : Option (Option Json))
    (hdry : cfg.dry_run = true) :
    (∀ r, run_once env cfg disk = Except.ok r →
        r.alerts_sent = 0 ∧ noAlertEvents r.events = true) ∧
    (∀ e, run_once env cfg disk = Except.error e → isPageFetchError e = true) := by
  constructor
  · intro r hr
    rcases run_once_ok_inv env cfg disk r hr with ⟨L, st, hc, hst, hr2⟩
    rcases processAll_dry env cfg hdry L (initState (load_seen disk)) with
      ⟨st2, h2, ha2, he2⟩
    have hstEq : st = st2 := by
      rw [hst] at h2
      injection h2 with h3
    subst hstEq
    subst hr2
    refine ⟨by simpa [mkPassResult, initState] using ha2, ?_⟩
    rw [noAlertEvents, List.all_eq_true]
    intro ev hev
    cases ev with
    | markSeen i => rfl
    | fetchPost i => rfl
    | skipLog i => rfl
    | dryRunLine i => rfl
    | alertSent s b =>
        exact absurd (he2 s b hev) (List.not_mem_nil _)
  · intro e he
    rcases run_once_error_inv env cfg disk e he with hc | ⟨L, e2, st, hc, hst, he2⟩
    · exact collectListings_error_shape env cfg e hc
    · exfalso
      rcases processAll_dry env cfg hdry L (initState (load_seen disk)) with
        ⟨st2, h2, _, _⟩
      rw [hst] at h2
      cases h2

/-- Witness for C9: the dry-run world `c9Env` matched a keyword yet the
pass reports zero alerts and an alert-free trace. -/
theorem C9_dry_run_no_alerts_witness :
    c9R.alerts_sent = 0 ∧ noAlertEvents c9R.events = true :=
  (C9_dry_run_no_alerts c9Env c9Cfg none rfl).1 c9R (by decide)

/-! ## Mark-seen-before-fetch and fault isolation: C1 -/

theorem processListing_unseen (env : Env) (cfg : Cfg) (st : LoopState) (l : Listing)
    (hseen : l.id ∉ st.seen) :
    (∃ rest, (stateOf (processListing env cfg st l)).events =
        st.events ++ Event.markSeen l.id :: Event.fetchPost l.link :: rest) ∧
    l.id ∈ (stateOf (processListing env cfg st l)).seen := by
  unfold processListing
  rw [if_neg hseen]
  cases hf : http_get_text (env.postResponse l.link) with
  | error m =>
      simp only [hf]
      exact ⟨⟨[Event.skipLog l.link], by simp [stateOf]⟩, by simp [stateOf]⟩
  | ok post_html =>
      simp only [hf]
      by_cases hempty : env.extract_post_text post_html = ""
      · rw [if_pos hempty]
        exact ⟨⟨[], by simp [stateOf]⟩, by simp [stateOf]⟩
      · rw [if_neg hempty]
        cases hkw : compile_keyword_regex cfg.keywords (env.extract_post_text post_html) with
        | none =>
            simp only [hkw]
            exact ⟨⟨[], by simp [stateOf]⟩, by simp [stateOf]⟩
        | some w =>
            simp only [hkw]
            by_cases hdry : cfg.dry_run = true
            · rw [if_pos hdry]
              exact ⟨⟨[Event.dryRunLine (alertSubject w)], by simp [stateOf]⟩,
                by simp [stateOf]⟩
            · rw [if_neg hdry]
              cases hsa : send_alert env.notifier (alertSubject w) (alertBody l w) with
              | error e =>
                  simp only [hsa]
                  exact ⟨⟨[], by simp [stateOf]⟩, by simp [stateOf]⟩
              | ok u =>
                  simp only [hsa]
                  exact ⟨⟨[Event.alertSent (alertSubject w) (alertBody l w)],
                    by simp [stateOf]⟩, by simp [stateOf]⟩

theorem processListing_fetch_fail (env : Env) (cfg : Cfg) (st : LoopState) (l : Listing)
    (m : String) (hseen : l.id ∉ st.seen)
    (hf : http_get_text (env.postResponse l.link) = Except.error m) :
    ∃ st2, processListing env cfg st l = Except.ok st2 ∧
      st2.seen = insert l.id st.seen ∧
      st2.alerts_sent = st.alerts_sent ∧
      st2.events = st.events ++
        [Event.markSeen l.id, Event.fetchPost l.link, Event.skipLog l.link] ∧
      ∀ ls, processAll env cfg st (l :: ls) = processAll env cfg st2 ls := by
  have h1 : processListing env cfg st l = Except.ok
      { st with processed_new := st.processed_new + 1
                seen := insert l.id st.seen
                events := ((st.events ++ [Event.markSeen l.id]) ++
                  [Event.fetchPost l.link]) ++ [Event.skipLog l.link] } := by
    unfold processListing
    rw [if_neg hseen]
    simp only [hf]
  refine ⟨_, h1, rfl, rfl, by simp, ?_⟩
  intro ls
  simp only [processAll, h1]

theorem processListing_ok_seen (env : Env) (cfg : Cfg) (st : LoopState) (l : Listing)
    (st2 : LoopState) (h : processListing env cfg st l = Except.ok st2) :
    l.id ∈ st2.seen ∧ st.seen ⊆ st2.seen := by
  unfold processListing at h
  by_cases hseen : l.id ∈ st.seen
  · rw [if_pos hseen] at h
    injection h with h2
    subst h2
    exact ⟨hseen, fun x hx => hx⟩
  · rw [if_neg hseen] at h
    cases hf : http_get_text (env.postResponse l.link) with
    | error m =>
        simp only [hf] at h
        injection h with h2
        subst h2
        exact ⟨Finset.mem_insert_self _ _, Finset.subset_insert _ _⟩
    | ok post_html =>
        simp only [hf] at h
        by_cases hempty : env.extract_post_text post_html = ""
        · rw [if_pos hempty] at h
          injection h with h2
          subst h2
          exact ⟨Finset.mem_insert_self _ _, Finset.subset_insert _ _⟩
        · rw [if_neg hempty] at h
          cases hkw : compile_keyword_regex cfg.keywords (env.extract_post_text post_html) with
          | none =>
              simp only [hkw] at h
              injection h with h2
              subst h2
              exact ⟨Finset.mem_insert_self _ _, Finset.subset_insert _ _⟩
          | some w =>
              simp only [hkw] at h
              by_cases hdry : cfg.dry_run = true
              · rw [if_pos hdry] at h
                injection h with h2
                subst h2
                exact ⟨Finset.mem_insert_self _ _, Finset.subset_insert _ _⟩
              · rw [if_neg hdry] at h
                cases hsa : send_alert env.notifier (alertSubject w) (alertBody l w) with
                | error e =>
                    simp only [hsa] at h
                    exact Except.noConfusion h
                | ok u =>
                    simp only [hsa] at h
                    injection h with h2
                    subst h2
                    exact ⟨Finset.mem_insert_self _ _, Finset.subset_insert _ _⟩

theorem processAll_ok_mem_seen (env : Env) (cfg : Cfg) :
    ∀ (ls : List Listing) (st st2 : LoopState),
      processAll env cfg st ls = Except.ok st2 →
      st.seen ⊆ st2.seen ∧ ∀ l ∈ ls, l.id ∈ st2.seen := by
  intro ls
  induction ls with
  | nil =>
      intro st st2 h
      injection h with h2
      subst h2
      exact ⟨fun x hx => hx, by simp⟩
  | cons l ls ih =>
      intro st st2 h
      cases h1 : processListing env cfg st l with
      | error e =>
          simp only [processAll, h1] at h
          exact Except.noConfusion h
      | ok st1 =>
          simp only [processAll, h1] at h
          rcases processListing_ok_seen env cfg st l st1 h1 with ⟨hmem, hsub⟩
          rcases ih st1 st2 h with ⟨hsub2, hmem2⟩
          refine ⟨fun x hx => hsub2 (hsub hx), ?_⟩
          intro x hx
          rcases List.mem_cons.mp hx with rfl | hx2
          · exact hsub2 hmem
          · exact hmem2 x hx2

theorem processListing_events_mono (env : Env) (cfg : Cfg) (st : LoopState) (l : Listing) :
    ∃ suf, (stateOf (processListing env cfg st l)).events = st.events ++ suf := by
  by_cases hseen : l.id ∈ st.seen
  · refine ⟨[], ?_⟩
    unfold processListing
    rw [if_pos hseen]
    simp [stateOf]
  · rcases processListing_unseen env cfg st l hseen with ⟨⟨rest, hrest⟩, _⟩
    exact ⟨Event.markSeen l.id :: Event.fetchPost l.link :: rest, hrest⟩

theorem processAll_events_mono (env : Env) (cfg : Cfg) :
    ∀ (ls : List Listing) (st : LoopState),
      ∃ suf, (stateOf (processAll env cfg st ls)).events = st.events ++ suf := by
  intro ls
  induction ls with
  | nil =>
      intro st
      exact ⟨[], by simp [stateOf, processAll]⟩
  | cons l ls ih =>
      intro st
      cases h1 : processListing env cfg st l with
      | error e =>
          obtain ⟨e1, st3⟩ := e
          rcases processListing_events_mono env cfg st l with ⟨suf, hsuf⟩
          rw [h1] at hsuf
          refine ⟨suf, ?_⟩
          simp only [processAll, h1]
          simp only [stateOf] at hsuf ⊢
          exact hsuf
      | ok st1 =>
          rcases processListing_events_mono env cfg st l with ⟨suf1, hsuf1⟩
          rw [h1] at hsuf1
          rcases ih st1 with ⟨suf2, hsuf2⟩
          refine ⟨suf1 ++ suf2, ?_⟩
          simp only [processAll, h1]
          rw [hsuf2]
          simp only [stateOf] at hsuf1
          rw [hsuf1, List.append_assoc]

theorem processAll_append (env : Env) (cfg : Cfg) :
    ∀ (L1 L2 : List Listing) (st st1 : LoopState),
      processAll env cfg st L1 = Except.ok st1 →
      processAll env cfg st (L1 ++ L2) = processAll env cfg st1 L2 := by
  intro L1
  induction L1 with
  | nil =>
      intro L2 st st1 h
      injection h with h2
      subst h2
      rw [List.nil_append]
  | cons l L1 ih =>
      intro L2 st st1 h
      cases h1 : processListing env cfg st l with
      | error e =>
          simp only [processAll, h1] at h
          exact Except.noConfusion h
      | ok stm =>
          simp only [processAll, h1] at h
          rw [List.cons_append]
          simp only [processAll, h1]
          exact ih L2 stm st1 h

/-- C1: in the per-listing loop, an unseen listing's id is added to the
in-memory seen set strictly before its detail fetch — the trace records
mark-seen then fetch-post, and the state already contains the id; a
failed detail fetch returns control to the loop (the pass continues with
the next listing) with the id kept, the alert count unchanged and a skip
logged; on a completed pass every unique listing's id — in particular a
fetch-failed one's — is in the seen set persisted to disk; and the events
(hence the alerts) produced by listings processed earlier in the pass
form a stable prefix of the final trace, unaffected by what happens to a
later listing. -/
theorem C1_mark_seen_before_fetch :
    (∀ (env : Env) (cfg : Cfg) (st : LoopState) (l : Listing), l.id ∉ st.seen →
        (∃ rest, (stateOf (processListing env cfg st l)).events =
            st.events ++ Event.markSeen l.id :: Event.fetchPost l.link :: rest) ∧
        l.id ∈ (stateOf (processListing env cfg st l)).seen) ∧
    (∀ (env : Env) (cfg : Cfg) (st : LoopState) (l : Listing) (m : String),
        l.id ∉ st.seen →
        http_get_text (env.postResponse l.link) = Except.error m →
        ∃ st2, processListing env cfg st l = Except.ok st2 ∧
          st2.seen = insert l.id st.seen ∧
          st2.alerts_sent = st.alerts_sent ∧
          st2.events = st.events ++
            [Event.markSeen l.id, Event.fetchPost l.link, Event.skipLog l.link] ∧
          ∀ ls, processAll env cfg st (l :: ls) = processAll env cfg st2 ls) ∧
    (∀ (env : Env) (cfg : Cfg) (disk : Option (Option Json)) (L : List Listing)
        (r : PassResult),
        collectListings env cfg = Except.ok L →
        run_once env cfg disk = Except.ok r →
        run_pass env cfg disk = (some (some (save_seen r.seen)), some r.summary) ∧
        ∀ l ∈ L, l.id ∈ r.seen ∧ l.id ∈ load_seen (run_pass env cfg disk).1) ∧
    (∀ (env : Env) (cfg : Cfg) (st st1 : LoopState) (L1 L2 : List Listing) (l : Listing),
        processAll env cfg st L1 = Except.ok st1 →
        ∃ suf, (stateOf (processAll env cfg st (L1 ++ l :: L2))).events =
          st1.events ++ suf) := by
  refine ⟨processListing_unseen, processListing_fetch_fail, ?_, ?_⟩
  · intro env cfg disk L r hc hr
    rcases run_once_ok_inv env cfg disk r hr with ⟨L2, st, hc2, hst, hr2⟩
    have hL : L2 = L := by
      rw [hc] at hc2
      injection hc2 with h3
      exact h3.symm
    subst hL
    have hrp : run_pass env cfg disk = (some (some (save_seen r.seen)), some r.summary) := by
      unfold run_pass
      rw [hr]
    refine ⟨hrp, ?_⟩
    intro l hl
    have hmem : l.id ∈ st.seen := (processAll_ok_mem_seen env cfg L2 _ _ hst).2 l hl
    have hseenr : r.seen = st.seen := by rw [hr2]; rfl
    constructor
    · rw [hseenr]
      exact hmem
    · rw [hrp]
      show l.id ∈ load_seen (some (some (save_seen r.seen)))
      rw [save_load_aux, hseenr]
      exact hmem
  · intro env cfg st st1 L1 L2 l hL1
    rw [processAll_append env cfg L1 (l :: L2) st st1 hL1]
    exact processAll_events_mono env cfg (l :: L2) st1

/-- Witness for C1: in the live world `c1Env`, listing B's detail fetch
fails, yet the pass completes, persists both A and B as seen, and A's
alert stands. -/
theorem C1_mark_seen_before_fetch_witness :
    run_pass c1Env c1Cfg none = (some (some (save_seen c1R.seen)), some c1R.summary) ∧
    c1B.id ∈ c1R.seen ∧ c1B.id ∈ load_seen (run_pass c1Env c1Cfg none).1 := by
  have h := C1_mark_seen_before_fetch.2.2.1 c1Env c1Cfg none [c1A, c1B] c1R
    (by decide) (by rfl)
  exact ⟨h.1, (h.2 c1B (by decide)).1, (h.2 c1B (by decide)).2⟩

end CraigslistWatch
